import Mathlib

/-!
Shallow embedding of the fruitbox round/score manager
(`src/Game/GameState.h`, `src/Game/GameState.cpp`) and proofs of the
specification claims about it.

The C++ core is a single class `GameState` holding a player map, two round
counters and a PRNG engine.  We embed it as a Lean structure with pure
state-passing operations.  `std::size_t` values become `Nat` (all arithmetic
in the source is additive on small values, so no overflow wrapping is
reachable or modelled).  The fallible `back()` access on a possibly empty
`std::vector` becomes an `Option`-returning operation whose `none` result
marks the undefined-behaviour branch.
-/

namespace Fruitbox

/-- Source: `constexpr std::size_t HEIGHT = 10;` -/
def HEIGHT : Nat := 10

/-- Source: `constexpr std::size_t WIDTH = 17;` -/
def WIDTH : Nat := 17

/-- Source: `struct Cell { std::size_t num_; };` — a single grid position. -/
structure Cell where
  num_ : Nat
deriving DecidableEq, Repr

/-- Source: `using grid_t = std::array<std::array<Cell, WIDTH>, HEIGHT>;`
embedded as a row list of cell lists; the fixed dimensions are proved
(claim C1) rather than baked into the type. -/
abbrev grid_t := List (List Cell)

/-- Source: `struct Player` — cumulative per-round totals and the current round's
individual deltas. -/
structure Player where
  scores : List Nat
  current_round_scores_ : List Nat
deriving DecidableEq, Repr

/-- The default-constructed `Player` that `std::unordered_map::operator[]`
value-initialises on a missing key: both vectors empty. -/
def Player.default : Player := ⟨[], []⟩

/-- Model of the `std::mt19937 rng_` engine state.  The engine is external
library code (not part of this repository); what the source relies on is
that it is a deterministic word stream fully determined by its seed.  We
model one engine step by a 64-bit linear congruential update, an
abstraction of the Mersenne twister's deterministic word sequence. -/
def mtNext (s : Nat) : Nat :=
  (6364136223846793005 * s + 1442695040888963407) % 2 ^ 64

/-- Model of one draw of `std::uniform_int_distribution<std::size_t> dist(1, 5)`
applied to the engine: the C++ standard guarantees the result lies in
`[1, 5]` and is a deterministic function of the engine's output words; the
exact mapping is implementation-defined, modelled here as `1 + word % 5`.
Returns the drawn value and the advanced engine state. -/
def distDraw (rng : Nat) : Nat × Nat :=
  let r := mtNext rng
  (1 + r % 5, r)

/-- Inner loop of `InitRound`: `for (j = 0; j < WIDTH; ++j) grid[i][j].num_ =
dist(rng_);` — one row of `w` cells drawn left to right, threading the
engine. -/
def genRow : Nat → Nat → List Cell × Nat
  | 0, rng => ([], rng)
  | n + 1, rng =>
    let (v, rng1) := distDraw rng
    let (rest, rng2) := genRow n rng1
    (⟨v⟩ :: rest, rng2)

/-- Outer loop of `InitRound`: `h` rows of `w` cells, row-major order,
threading the engine. -/
def genGrid : Nat → Nat → Nat → List (List Cell) × Nat
  | 0, _, rng => ([], rng)
  | h + 1, w, rng =>
    let (row, rng1) := genRow w rng
    let (rest, rng2) := genGrid h w rng1
    (row :: rest, rng2)

/-- Source: `std::unordered_map<std::string, Player> players_`, embedded as an
association list (the map's iteration order is unspecified in C++ and no
claim depends on it).  Lookup by key. -/
def findPlayer : List (String × Player) → String → Option Player
  | [], _ => none
  | (k, p) :: rest, n => if k = n then some p else findPlayer rest n

/-- Store a value under a key: replace the existing binding, or append a
new one (the insertion `operator[]` performs on a miss). -/
def setPlayer : List (String × Player) → String → Player → List (String × Player)
  | [], n, p => [(n, p)]
  | (k, q) :: rest, n, p =>
    if k = n then (n, p) :: rest else (k, q) :: setPlayer rest n p

/-- Source: `class GameState` — the round/score manager's state. -/
structure GameState where
  players_ : List (String × Player)
  total_rounds_ : Nat
  current_round_ : Nat
  rng_ : Nat
deriving DecidableEq, Repr

/-- Source: `GameState::GameState() { rng_.seed(0); }` with the in-class member
initialisers `total_rounds_ = 0`, `current_round_ = 0` and an empty map. -/
def GameState.init : GameState :=
  { players_ := [], total_rounds_ := 0, current_round_ := 0, rng_ := 0 }

/-- The loop body `InitRound` runs on every player:
`player.scores.push_back(0); player.current_round_scores_.clear();` -/
def roundReset (p : Player) : Player :=
  { scores := p.scores ++ [0], current_round_scores_ := [] }

/-- Source: `grid_t GameState::InitRound()` — draws a fresh HEIGHT×WIDTH grid from
the engine, increments `current_round_`, and for every player in the map
appends `0` to `scores` and clears `current_round_scores_`.  Returns the
grid and the updated state. -/
def GameState.InitRound (s : GameState) : grid_t × GameState :=
  let (grid, rng1) := genGrid HEIGHT WIDTH s.rng_
  (grid,
    { s with
      rng_ := rng1
      current_round_ := s.current_round_ + 1
      players_ := s.players_.map fun kp => (kp.1, roundReset kp.2) })

/-- Source: `vec.back() += delta` on a `std::vector` embedded as a list: `none` when
the vector is empty (the undefined-behaviour branch of `back()`), otherwise
the list with `delta` added to its last element. -/
def addToBack (xs : List Nat) (delta : Nat) : Option (List Nat) :=
  match xs.getLast? with
  | none => none
  | some last => some (xs.dropLast ++ [last + delta])

/-- Source: `void GameState::UpdatePlayerScore(name, delta)` —
`players_[name].scores.back() += delta;
players_[name].current_round_scores_.push_back(delta);`
`operator[]` default-creates a missing player, so the `back()` access reads
the last element of that fresh player's empty `scores`: the `none` result
marks that undefined-behaviour branch. -/
def GameState.UpdatePlayerScore (s : GameState) (name : String) (delta : Nat) :
    Option GameState :=
  let p := (findPlayer s.players_ name).getD Player.default
  match addToBack p.scores delta with
  | none => none
  | some scores1 =>
    some { s with
      players_ := setPlayer s.players_ name
        { scores := scores1
          current_round_scores_ := p.current_round_scores_ ++ [delta] } }

/-- Source: `Player &GameState::GetOrAddPlayer(name) { return players_[name]; }` —
`operator[]` returns the existing player or inserts a default-constructed
one.  Returns the player handed back and the (possibly extended) state. -/
def GameState.GetOrAddPlayer (s : GameState) (name : String) :
    Player × GameState :=
  match findPlayer s.players_ name with
  | some p => (p, s)
  | none =>
    (Player.default,
      { s with players_ := setPlayer s.players_ name Player.default })

/-- A client call against the manager: the three public mutating entry
points. -/
inductive Op where
  | initRound : Op
  | getOrAdd : String → Op
  | update : String → Nat → Op
deriving DecidableEq, Repr

/-- One call: `update` propagates the undefined-behaviour branch as `none`. -/
def runOp (s : GameState) : Op → Option GameState
  | .initRound => some (s.InitRound).2
  | .getOrAdd n => some (s.GetOrAddPlayer n).2
  | .update n d => s.UpdatePlayerScore n d

/-- A call sequence, aborted (`none`) at the first undefined-behaviour
branch. -/
def runOps (s : GameState) : List Op → Option GameState
  | [] => some s
  | op :: rest =>
    match runOp s op with
    | none => none
    | some s1 => runOps s1 rest

/-- The grids a call sequence makes the manager return, in order; the list
stops at an undefined-behaviour branch. -/
def gridsOfTrace (s : GameState) : List Op → List grid_t
  | [] => []
  | .initRound :: rest => (s.InitRound).1 :: gridsOfTrace (s.InitRound).2 rest
  | .getOrAdd n :: rest => gridsOfTrace (s.GetOrAddPlayer n).2 rest
  | .update n d :: rest =>
    match s.UpdatePlayerScore n d with
    | none => []
    | some s1 => gridsOfTrace s1 rest

/-- The per-player content of `UpdatePlayerScore`, isolated: the new player
value when the `back()` access succeeds. -/
def updElem (p : Player) (delta : Nat) : Option Player :=
  match addToBack p.scores delta with
  | none => none
  | some scores1 =>
    some { scores := scores1
           current_round_scores_ := p.current_round_scores_ ++ [delta] }

/-- Number of `initRound` calls in a call sequence. -/
def countInit : List Op → Nat
  | [] => 0
  | .initRound :: rest => countInit rest + 1
  | _ :: rest => countInit rest

/-- Whether a call references (and hence, on a miss, creates) the named
player: `getOrAdd` and `update` do, `initRound` touches only players
already present. -/
def opRefs : Op → String → Bool
  | .initRound, _ => false
  | .getOrAdd n, m => n = m
  | .update n _, m => n = m

/-- The number of rounds started after the named player is first
referenced in the call sequence; `none` when the sequence never references
the player. -/
def roundsSinceJoin : List Op → String → Option Nat
  | [], _ => none
  | op :: rest, m =>
    if opRefs op m then some (countInit rest) else roundsSinceJoin rest m

/-- The C9 invariant: every player with a non-empty cumulative-scores
sequence has its trailing entry equal to the sum of the current round's
deltas. -/
def ScoreInv (s : GameState) : Prop :=
  ∀ name p, findPlayer s.players_ name = some p → p.scores ≠ [] →
    p.scores.getLast? = some p.current_round_scores_.sum

/-- Player name used in concrete scenarios. -/
def bob : String := "bob"

/-- Player name used in concrete scenarios. -/
def alice : String := "alice"

/-- A concrete manager state after one round with one player who already
scored 7 in it. -/
def sBob : GameState :=
  { players_ := [(bob, ⟨[7], [7]⟩)], total_rounds_ := 0,
    current_round_ := 1, rng_ := 0 }

/-- A concrete manager state after one round with one player whose round
deltas are still empty. -/
def sBob2 : GameState :=
  { players_ := [(bob, ⟨[7], []⟩)], total_rounds_ := 0,
    current_round_ := 1, rng_ := 0 }

/-- State after the fresh manager gets player `bob`. -/
def sJoin : GameState := (GameState.init.GetOrAddPlayer bob).2

/-- State after a round then starts. -/
def sRound : GameState := (sJoin.InitRound).2

/-- State after `bob` then scores 3. -/
def sScored : GameState := (sRound.UpdatePlayerScore bob 3).getD sRound

/-- The spec's C6 scenario: a round, then alice joins, then another
round. -/
def sAlice : GameState :=
  (((GameState.init.InitRound).2.GetOrAddPlayer alice).2.InitRound).2

/-! ### Basic lemmas about the grid generator -/

lemma distDraw_fst_mem (rng : Nat) :
    1 ≤ (distDraw rng).1 ∧ (distDraw rng).1 ≤ 5 := by
  have h : (distDraw rng).1 = 1 + mtNext rng % 5 := rfl
  have h5 : mtNext rng % 5 < 5 := Nat.mod_lt _ (by norm_num)
  omega

lemma genRow_length (n rng : Nat) : ((genRow n rng).1).length = n := by
  induction n generalizing rng with
  | zero => rfl
  | succ k ih =>
    unfold genRow
    simp [ih]

lemma genRow_mem_range (n rng : Nat) :
    ∀ c ∈ (genRow n rng).1, 1 ≤ c.num_ ∧ c.num_ ≤ 5 := by
  induction n generalizing rng with
  | zero => intro c hc; simp [genRow] at hc
  | succ k ih =>
    intro c hc
    unfold genRow at hc
    simp only [List.mem_cons] at hc
    rcases hc with h | h
    · subst h
      exact distDraw_fst_mem rng
    · exact ih _ c h

lemma genGrid_length (h w rng : Nat) : ((genGrid h w rng).1).length = h := by
  induction h generalizing rng with
  | zero => rfl
  | succ k ih =>
    unfold genGrid
    simp [ih]

lemma genGrid_rows (h w rng : Nat) :
    ∀ row ∈ (genGrid h w rng).1,
      row.length = w ∧ ∀ c ∈ row, 1 ≤ c.num_ ∧ c.num_ ≤ 5 := by
  induction h generalizing rng with
  | zero => intro row hrow; simp [genGrid] at hrow
  | succ k ih =>
    intro row hrow
    unfold genGrid at hrow
    simp only [List.mem_cons] at hrow
    rcases hrow with hr | hr
    · subst hr
      exact ⟨genRow_length _ _, genRow_mem_range _ _⟩
    · exact ih _ row hr

/-! ### Basic lemmas about the player map -/

lemma findPlayer_map_roundReset (ps : List (String × Player)) (n : String) :
    findPlayer (ps.map fun kp => (kp.1, roundReset kp.2)) n =
      (findPlayer ps n).map roundReset := by
  induction ps with
  | nil => rfl
  | cons kp rest ih =>
    by_cases h : kp.1 = n <;> simp [findPlayer, h, ih]

lemma findPlayer_setPlayer_self (ps : List (String × Player))
    (n : String) (p : Player) :
    findPlayer (setPlayer ps n p) n = some p := by
  induction ps with
  | nil => simp [setPlayer, findPlayer]
  | cons kp rest ih =>
    by_cases h : kp.1 = n <;> simp [setPlayer, findPlayer, h, ih]

lemma findPlayer_setPlayer_ne (ps : List (String × Player))
    (n m : String) (p : Player) (hnm : n ≠ m) :
    findPlayer (setPlayer ps n p) m = findPlayer ps m := by
  induction ps with
  | nil => simp [setPlayer, findPlayer, hnm]
  | cons kp rest ih =>
    by_cases h : kp.1 = n
    · subst h
      simp [setPlayer, findPlayer, hnm]
    · by_cases h2 : kp.1 = m <;>
        simp [setPlayer, findPlayer, h, h2, Ne.symm hnm, ih]

lemma setPlayer_absent (ps : List (String × Player)) (n : String) (p : Player)
    (h : findPlayer ps n = none) :
    setPlayer ps n p = ps ++ [(n, p)] := by
  induction ps with
  | nil => rfl
  | cons kp rest ih =>
    by_cases hk : kp.1 = n
    · simp [findPlayer, hk] at h
    · simp [findPlayer, hk] at h
      simp [setPlayer, hk, ih h]

/-! ### Unfolding lemmas for the three operations -/

lemma InitRound_snd (s : GameState) :
    (s.InitRound).2 =
      { s with
        rng_ := (genGrid HEIGHT WIDTH s.rng_).2
        current_round_ := s.current_round_ + 1
        players_ := s.players_.map fun kp => (kp.1, roundReset kp.2) } := by
  rfl

lemma UpdatePlayerScore_of_found (s : GameState) (name : String) (delta : Nat)
    (p : Player) (l : Nat)
    (hp : findPlayer s.players_ name = some p)
    (hl : p.scores.getLast? = some l) :
    s.UpdatePlayerScore name delta =
      some { s with
        players_ := setPlayer s.players_ name
          { scores := p.scores.dropLast ++ [l + delta]
            current_round_scores_ := p.current_round_scores_ ++ [delta] } } := by
  unfold GameState.UpdatePlayerScore addToBack
  simp [hp, hl]

lemma UpdatePlayerScore_eq_none (s : GameState) (name : String) (delta : Nat) :
    s.UpdatePlayerScore name delta = none ↔
      ((findPlayer s.players_ name).getD Player.default).scores = [] := by
  unfold GameState.UpdatePlayerScore addToBack
  rcases h : ((findPlayer s.players_ name).getD Player.default).scores with _ | ⟨x, xs⟩
  · simp [h]
  · simp [h, List.getLast?_eq_getLast]

/-- C1: every call to `InitRound`, from any manager state (hence for every
sequence of calls), returns a grid with exactly HEIGHT = 10 rows of
WIDTH = 17 cells, every cell value lying in the integer range [1, 5]. -/
theorem initRound_grid_wellformed (s : GameState) :
    ((s.InitRound).1).length = HEIGHT ∧
    ∀ row ∈ (s.InitRound).1,
      row.length = WIDTH ∧ ∀ c ∈ row, 1 ≤ c.num_ ∧ c.num_ ≤ 5 := by
  unfold GameState.InitRound
  exact ⟨genGrid_length _ _ _, genGrid_rows _ _ _⟩

/-- Witness for C1: the wellformedness theorem evaluated on the freshly
constructed manager's first round, with the row-membership hypothesis
discharged on the concrete first row of that grid. -/
theorem initRound_grid_wellformed_witness :
    ((GameState.init.InitRound).1).length = HEIGHT ∧
    ((GameState.init.InitRound).1).headI.length = WIDTH :=
  ⟨(initRound_grid_wellformed GameState.init).1,
   ((initRound_grid_wellformed GameState.init).2
      ((GameState.init.InitRound).1).headI (by decide)).1⟩

/-- C2: `InitRound` increments `current_round_` by exactly one and, for
every player known to the manager at the time of the call, appends exactly
one `0` entry to that player's `scores` and clears that player's
`current_round_scores_` to empty. -/
theorem initRound_round_and_players (s : GameState) :
    (s.InitRound).2.current_round_ = s.current_round_ + 1 ∧
    ∀ name p, findPlayer s.players_ name = some p →
      findPlayer (s.InitRound).2.players_ name =
        some { scores := p.scores ++ [0], current_round_scores_ := [] } := by
  constructor
  · rw [InitRound_snd]
  · intro name p hp
    rw [InitRound_snd]
    simp only
    rw [findPlayer_map_roundReset, hp]
    rfl

/-- Witness for C2: on a manager holding one player with scores `[7]` and a
pending delta `7`, `InitRound` bumps the round counter, appends a zero and
clears the deltas. -/
theorem initRound_round_and_players_witness :
    ((sBob.InitRound).2.current_round_ = 2) ∧
    findPlayer (sBob.InitRound).2.players_ bob =
      some { scores := [7, 0], current_round_scores_ := [] } :=
  ⟨(initRound_round_and_players sBob).1,
   (initRound_round_and_players sBob).2 bob ⟨[7], [7]⟩ (by decide)⟩

/-- C8: `GetOrAddPlayer(name)` — on a miss it creates and inserts a player
whose `scores` and `current_round_scores_` are both empty (and hands that
player back); on a hit it returns the existing player's state and modifies
nothing. -/
theorem getOrAddPlayer_spec (s : GameState) (name : String) :
    (findPlayer s.players_ name = none →
      s.GetOrAddPlayer name =
        (Player.default,
          { s with players_ := s.players_ ++ [(name, Player.default)] }) ∧
      Player.default.scores = [] ∧
      Player.default.current_round_scores_ = []) ∧
    (∀ p, findPlayer s.players_ name = some p →
      s.GetOrAddPlayer name = (p, s)) := by
  constructor
  · intro hnone
    refine ⟨?_, rfl, rfl⟩
    unfold GameState.GetOrAddPlayer
    rw [hnone, setPlayer_absent s.players_ name Player.default hnone]
  · intro p hp
    unfold GameState.GetOrAddPlayer
    rw [hp]

/-- Witness for C8: both branches on concrete states — a miss on the fresh
manager inserts `alice` with empty sequences; a hit on `sBob` returns bob's
state unmodified. -/
theorem getOrAddPlayer_spec_witness :
    (GameState.init.GetOrAddPlayer alice =
      (Player.default,
        { GameState.init with players_ := [(alice, Player.default)] })) ∧
    sBob.GetOrAddPlayer bob = (⟨[7], [7]⟩, sBob) :=
  ⟨((getOrAddPlayer_spec GameState.init alice).1 (by decide)).1,
   (getOrAddPlayer_spec sBob bob).2 ⟨[7], [7]⟩ (by decide)⟩

/-- C3: `UpdatePlayerScore` is safe exactly under the precondition that the
named player's (looked-up or default-created) `scores` sequence is
non-empty: the embedded `back()` access errors precisely on an empty
sequence, and calling before any round has started — here on the manager
fresh from construction, after only a lookup-or-create of the player —
concretely reaches that error branch. -/
theorem updatePlayerScore_requires_nonempty (s : GameState) (name : String)
    (delta : Nat) :
    (s.UpdatePlayerScore name delta = none ↔
      ((findPlayer s.players_ name).getD Player.default).scores = []) ∧
    ((GameState.init.GetOrAddPlayer name).2).UpdatePlayerScore name delta =
      none := by
  refine ⟨UpdatePlayerScore_eq_none s name delta, ?_⟩
  rw [UpdatePlayerScore_eq_none]
  unfold GameState.GetOrAddPlayer
  simp [GameState.init, findPlayer, findPlayer_setPlayer_self, Player.default]

/-- C4 counterexample: even with a round already active, recording a score
for a brand-new name reaches the empty-sequence error branch of the
`back()` access — the branch is not unreachable for a player auto-created
during the call. -/
theorem update_newPlayer_errs_counterexample :
    findPlayer ((GameState.init.InitRound).2).players_ bob = none ∧
    ((GameState.init.InitRound).2).UpdatePlayerScore bob 5 = none := by
  constructor <;> rfl

/-- C4 amended: calling `UpdatePlayerScore` with a name not yet in the
player map default-creates that player with empty `scores`, so the
empty-sequence error branch of the embedded `back()` access IS reached —
the call is erroneous for a brand-new player created on demand, not
safe. -/
theorem update_newPlayer_errs (s : GameState) (name : String) (delta : Nat)
    (h : findPlayer s.players_ name = none) :
    s.UpdatePlayerScore name delta = none := by
  rw [UpdatePlayerScore_eq_none, h]
  rfl

/-- Witness for the amended C4: the brand-new name `bob`, recorded against
the manager right after its first round started, hits the error branch. -/
theorem update_newPlayer_errs_witness :
    ((GameState.init.InitRound).2).UpdatePlayerScore bob 5 = none :=
  update_newPlayer_errs (GameState.init.InitRound).2 bob 5 (by rfl)

/-- C5: for a player present with non-empty `scores` (last entry `l`),
`UpdatePlayerScore(name, delta)` adds `delta` to that last entry and
appends `delta` to `current_round_scores_`; in particular two successive
calls with deltas 5 then 3 within one round (round deltas empty before)
leave the deltas sequence equal to `[5, 3]` and the last cumulative entry
increased by 8. -/
lemma update_step (s : GameState) (name : String) (p : Player) (l delta : Nat)
    (hp : findPlayer s.players_ name = some p)
    (hl : p.scores.getLast? = some l) :
    ∃ s1, s.UpdatePlayerScore name delta = some s1 ∧
      findPlayer s1.players_ name = some
        { scores := p.scores.dropLast ++ [l + delta]
          current_round_scores_ := p.current_round_scores_ ++ [delta] } :=
  ⟨_, UpdatePlayerScore_of_found s name delta p l hp hl,
   findPlayer_setPlayer_self _ _ _⟩

theorem updatePlayerScore_effect (s : GameState) (name : String) (p : Player)
    (l : Nat) (hp : findPlayer s.players_ name = some p)
    (hl : p.scores.getLast? = some l) :
    (∀ delta, ∃ s1, s.UpdatePlayerScore name delta = some s1 ∧
      findPlayer s1.players_ name = some
        { scores := p.scores.dropLast ++ [l + delta]
          current_round_scores_ := p.current_round_scores_ ++ [delta] } ∧
      (p.scores.dropLast ++ [l + delta]).getLast? = some (l + delta)) ∧
    (p.current_round_scores_ = [] →
      ∃ s1 s2, s.UpdatePlayerScore name 5 = some s1 ∧
        s1.UpdatePlayerScore name 3 = some s2 ∧
        ∃ q, findPlayer s2.players_ name = some q ∧
          q.current_round_scores_ = [5, 3] ∧
          q.scores.getLast? = some (l + 8)) := by
  constructor
  · intro delta
    obtain ⟨s1, hs1, hfind1⟩ := update_step s name p l delta hp hl
    exact ⟨s1, hs1, hfind1, List.getLast?_concat _⟩
  · intro hcur
    obtain ⟨s1, hs1, hfind1⟩ := update_step s name p l 5 hp hl
    obtain ⟨s2, hs2, hfind2⟩ :=
      update_step s1 name _ (l + 5) 3 hfind1 (List.getLast?_concat _)
    refine ⟨s1, s2, hs1, hs2, _, hfind2, ?_, ?_⟩
    · simp [hcur]
    · simp [List.dropLast_concat]

/-- Witness for C5: on `sBob2` (bob's scores `[7]`, round deltas empty),
recording 5 then 3 yields deltas `[5, 3]` and last cumulative entry 15. -/
theorem updatePlayerScore_effect_witness :
    ∃ s1 s2, sBob2.UpdatePlayerScore bob 5 = some s1 ∧
      s1.UpdatePlayerScore bob 3 = some s2 ∧
      ∃ q, findPlayer s2.players_ bob = some q ∧
        q.current_round_scores_ = [5, 3] ∧
        q.scores.getLast? = some 15 :=
  (updatePlayerScore_effect sBob2 bob ⟨[7], []⟩ 7 (by decide) (by decide)).2
    (by decide)

lemma UpdatePlayerScore_eq (s : GameState) (name : String) (delta : Nat) :
    s.UpdatePlayerScore name delta =
      (updElem ((findPlayer s.players_ name).getD Player.default) delta).map
        fun q => { s with players_ := setPlayer s.players_ name q } := by
  unfold GameState.UpdatePlayerScore updElem
  rcases h : addToBack ((findPlayer s.players_ name).getD Player.default).scores
    delta with _ | sc <;> simp [h]

lemma InitRound_fst (s : GameState) :
    (s.InitRound).1 = (genGrid HEIGHT WIDTH s.rng_).1 := rfl

/-- C7: the stream of grids a manager produces depends only on its engine
state and its player map — two managers with equal engine state and equal
player maps (in particular, two managers constructed identically) driven
with the same call sequence return identical grids round-for-round. -/
theorem grids_deterministic (ops : List Op) :
    ∀ s1 s2 : GameState, s1.rng_ = s2.rng_ → s1.players_ = s2.players_ →
      gridsOfTrace s1 ops = gridsOfTrace s2 ops := by
  induction ops with
  | nil => intro s1 s2 _ _; rfl
  | cons op rest ih =>
    intro s1 s2 hr hp
    cases op with
    | initRound =>
      have hg : (s1.InitRound).1 = (s2.InitRound).1 := by
        rw [InitRound_fst, InitRound_fst, hr]
      have hr' : (s1.InitRound).2.rng_ = (s2.InitRound).2.rng_ := by
        rw [InitRound_snd, InitRound_snd]
        simp [hr]
      have hp' : (s1.InitRound).2.players_ = (s2.InitRound).2.players_ := by
        rw [InitRound_snd, InitRound_snd]
        simp [hp]
      simp only [gridsOfTrace]
      rw [hg, ih _ _ hr' hp']
    | getOrAdd n =>
      cases hfp : findPlayer s1.players_ n with
      | some p =>
        have e1 : (s1.GetOrAddPlayer n).2 = s1 := by
          unfold GameState.GetOrAddPlayer
          rw [hfp]
        have e2 : (s2.GetOrAddPlayer n).2 = s2 := by
          unfold GameState.GetOrAddPlayer
          rw [← hp, hfp]
        simp only [gridsOfTrace]
        rw [e1, e2]
        exact ih _ _ hr hp
      | none =>
        have e1 : (s1.GetOrAddPlayer n).2 =
            { s1 with players_ := setPlayer s1.players_ n Player.default } := by
          unfold GameState.GetOrAddPlayer
          rw [hfp]
        have e2 : (s2.GetOrAddPlayer n).2 =
            { s2 with players_ := setPlayer s2.players_ n Player.default } := by
          unfold GameState.GetOrAddPlayer
          rw [← hp, hfp]
        simp only [gridsOfTrace]
        rw [e1, e2]
        exact ih _ _ hr (by simp [hp])
    | update n d =>
      rcases he : updElem ((findPlayer s1.players_ n).getD Player.default) d
        with _ | q
      · have e1 : s1.UpdatePlayerScore n d = none := by
          rw [UpdatePlayerScore_eq, he]
          rfl
        have e2 : s2.UpdatePlayerScore n d = none := by
          rw [UpdatePlayerScore_eq, ← hp, he]
          rfl
        simp only [gridsOfTrace]
        rw [e1, e2]
      · have e1 : s1.UpdatePlayerScore n d =
            some { s1 with players_ := setPlayer s1.players_ n q } := by
          rw [UpdatePlayerScore_eq, he]
          rfl
        have e2 : s2.UpdatePlayerScore n d =
            some { s2 with players_ := setPlayer s2.players_ n q } := by
          rw [UpdatePlayerScore_eq, ← hp, he]
          rfl
        simp only [gridsOfTrace]
        rw [e1, e2]
        exact ih _ _ hr (by simp [hp])

/-- Witness for C7: two freshly constructed managers, driven through a
round, a player creation and a score, produce equal grid lists. -/
theorem grids_deterministic_witness :
    gridsOfTrace GameState.init [.initRound, .getOrAdd bob, .update bob 5] =
      gridsOfTrace GameState.init [.initRound, .getOrAdd bob, .update bob 5] :=
  grids_deterministic [.initRound, .getOrAdd bob, .update bob 5]
    GameState.init GameState.init rfl rfl

lemma runOp_frame (s : GameState) (op : Op) (s' : GameState)
    (h : runOp s op = some s') : s'.total_rounds_ = s.total_rounds_ := by
  cases op with
  | initRound =>
    simp only [runOp] at h
    rw [← Option.some_inj.mp h, InitRound_snd]
  | getOrAdd n =>
    simp only [runOp] at h
    rw [← Option.some_inj.mp h]
    unfold GameState.GetOrAddPlayer
    cases findPlayer s.players_ n <;> rfl
  | update n d =>
    simp only [runOp, UpdatePlayerScore_eq] at h
    rcases he : updElem ((findPlayer s.players_ n).getD Player.default) d
      with _ | q
    · rw [he] at h
      simp at h
    · rw [he] at h
      simp at h
      rw [← h]

lemma runOps_frame (ops : List Op) :
    ∀ s s' : GameState, runOps s ops = some s' →
      s'.total_rounds_ = s.total_rounds_ := by
  induction ops with
  | nil =>
    intro s s' h
    simp only [runOps] at h
    rw [← Option.some_inj.mp h]
  | cons op rest ih =>
    intro s s' h
    simp only [runOps] at h
    rcases ho : runOp s op with _ | s1
    · rw [ho] at h
      exact absurd h (by simp)
    · rw [ho] at h
      rw [ih s1 s' h, runOp_frame s op s1 ho]

/-- C10: no operation modifies `total_rounds_` — each single call preserves
it, and after any call sequence from the freshly constructed manager it
still equals its initial value 0. -/
theorem total_rounds_static (ops : List Op) (s' : GameState)
    (h : runOps GameState.init ops = some s') :
    s'.total_rounds_ = 0 ∧
    ∀ s : GameState, ∀ op : Op, ∀ t : GameState,
      runOp s op = some t → t.total_rounds_ = s.total_rounds_ :=
  ⟨runOps_frame ops GameState.init s' h, runOp_frame⟩

/-- Witness for C10: after creating a player on the fresh manager,
`total_rounds_` is still 0 (and the per-call frame lemma applies there). -/
theorem total_rounds_static_witness :
    ((GameState.init.GetOrAddPlayer alice).2).total_rounds_ = 0 :=
  (total_rounds_static [.getOrAdd alice]
    (GameState.init.GetOrAddPlayer alice).2 rfl).1

lemma addToBack_some (xs sc : List Nat) (d : Nat)
    (h : addToBack xs d = some sc) :
    ∃ l, xs.getLast? = some l ∧ sc = xs.dropLast ++ [l + d] := by
  unfold addToBack at h
  rcases hl : xs.getLast? with _ | l
  · rw [hl] at h
    exact absurd h (by simp)
  · rw [hl] at h
    exact ⟨l, rfl, (Option.some_inj.mp h).symm⟩

lemma addToBack_length (xs sc : List Nat) (d : Nat)
    (h : addToBack xs d = some sc) : sc.length = xs.length := by
  obtain ⟨l, hl, hsc⟩ := addToBack_some xs sc d h
  have hne : xs ≠ [] := by
    intro he
    rw [he] at hl
    exact absurd hl (by simp)
  have hpos : 0 < xs.length := List.length_pos.mpr hne
  rw [hsc]
  simp [List.length_dropLast]
  omega

lemma updElem_some (p q : Player) (d : Nat) (h : updElem p d = some q) :
    ∃ l, p.scores.getLast? = some l ∧
      q.scores = p.scores.dropLast ++ [l + d] ∧
      q.current_round_scores_ = p.current_round_scores_ ++ [d] ∧
      q.scores.length = p.scores.length := by
  unfold updElem at h
  rcases hb : addToBack p.scores d with _ | sc
  · rw [hb] at h
    exact absurd h (by simp)
  · rw [hb] at h
    obtain ⟨l, hl, hsc⟩ := addToBack_some _ _ _ hb
    refine ⟨l, hl, ?_, ?_, ?_⟩
    · rw [← Option.some_inj.mp h, ← hsc]
    · rw [← Option.some_inj.mp h]
    · rw [← Option.some_inj.mp h]
      exact addToBack_length _ _ _ hb

lemma update_success_found (s : GameState) (n : String) (d : Nat)
    (s1 : GameState) (h : s.UpdatePlayerScore n d = some s1) :
    ∃ p0 q, findPlayer s.players_ n = some p0 ∧ updElem p0 d = some q ∧
      s1 = { s with players_ := setPlayer s.players_ n q } := by
  rw [UpdatePlayerScore_eq] at h
  rcases hf : findPlayer s.players_ n with _ | p0
  · rw [hf] at h
    simp [Player.default, updElem, addToBack] at h
  · rw [hf] at h
    rcases he : updElem p0 d with _ | q
    · rw [Option.getD_some, he] at h
      exact absurd h (by simp)
    · rw [Option.getD_some, he] at h
      rw [Option.map_some'] at h
      exact ⟨p0, q, rfl, he, (Option.some_inj.mp h).symm⟩

lemma scoreInv_init : ScoreInv GameState.init := by
  intro name p hp
  simp [GameState.init, findPlayer] at hp

lemma scoreInv_runOp (s s' : GameState) (op : Op)
    (h : runOp s op = some s') (inv : ScoreInv s) : ScoreInv s' := by
  cases op with
  | initRound =>
    simp only [runOp] at h
    rw [← Option.some_inj.mp h, InitRound_snd]
    intro name p hp _
    rw [findPlayer_map_roundReset] at hp
    rcases hf : findPlayer s.players_ name with _ | p0
    · rw [hf] at hp
      exact absurd hp (by simp)
    · rw [hf] at hp
      rw [Option.map_some'] at hp
      rw [← Option.some_inj.mp hp]
      simp [roundReset]
  | getOrAdd n =>
    simp only [runOp] at h
    rw [← Option.some_inj.mp h]
    unfold GameState.GetOrAddPlayer
    rcases hf : findPlayer s.players_ n with _ | p0
    · intro name p hp hne
      by_cases he : n = name
      · subst he
        rw [findPlayer_setPlayer_self] at hp
        rw [← Option.some_inj.mp hp] at hne
        exact absurd rfl hne
      · rw [findPlayer_setPlayer_ne _ _ _ _ he] at hp
        exact inv name p hp hne
    · exact inv
  | update n d =>
    simp only [runOp] at h
    obtain ⟨p0, q, hf, he, hs1⟩ := update_success_found s n d s' h
    obtain ⟨l, hl, hq, hcur, _⟩ := updElem_some p0 q d he
    rw [hs1]
    intro name p hp hne
    by_cases hnm : n = name
    · subst hnm
      rw [findPlayer_setPlayer_self] at hp
      rw [← Option.some_inj.mp hp, hq, hcur]
      have hne0 : p0.scores ≠ [] := by
        intro hz
        rw [hz] at hl
        exact absurd hl (by simp)
      have hinv := inv n p0 hf hne0
      rw [hl] at hinv
      rw [List.getLast?_concat, List.sum_append, Option.some_inj.mp hinv]
      simp
    · rw [findPlayer_setPlayer_ne _ _ _ _ hnm] at hp
      exact inv name p hp hne

lemma scoreInv_runOps (ops : List Op) :
    ∀ s s' : GameState, runOps s ops = some s' → ScoreInv s → ScoreInv s' := by
  induction ops with
  | nil =>
    intro s s' h inv
    simp only [runOps] at h
    rw [← Option.some_inj.mp h]
    exact inv
  | cons op rest ih =>
    intro s s' h inv
    simp only [runOps] at h
    rcases ho : runOp s op with _ | s1
    · rw [ho] at h
      exact absurd h (by simp)
    · rw [ho] at h
      exact ih s1 s' h (scoreInv_runOp s s1 op ho inv)

/-- C9: in every state reachable from the fresh manager by any sequence of
calls (with score recordings well-defined), every player with a non-empty
`scores` sequence has its last entry equal to the sum of the entries of
`current_round_scores_`. -/
theorem score_invariant (ops : List Op) (s : GameState)
    (h : runOps GameState.init ops = some s) :
    ∀ name p, findPlayer s.players_ name = some p → p.scores ≠ [] →
      p.scores.getLast? = some p.current_round_scores_.sum :=
  scoreInv_runOps ops GameState.init s h scoreInv_init

/-- Witness for C9: after joining, a round start and a score of 3, bob's
scores are `[3]` with round deltas `[3]`, and the invariant holds there. -/
theorem score_invariant_witness :
    (⟨[3], [3]⟩ : Player).scores.getLast? =
      some (⟨[3], [3]⟩ : Player).current_round_scores_.sum :=
  score_invariant [.getOrAdd bob, .initRound, .update bob 3] sScored
    (by rfl) bob ⟨[3], [3]⟩ (by rfl) (by decide)

lemma runOps_scores_length (ops : List Op) :
    ∀ s s' : GameState, runOps s ops = some s' → ∀ name : String,
      (∀ p p', findPlayer s.players_ name = some p →
        findPlayer s'.players_ name = some p' →
          p'.scores.length = p.scores.length + countInit ops) ∧
      (findPlayer s.players_ name = none →
        ∀ p', findPlayer s'.players_ name = some p' →
          roundsSinceJoin ops name = some p'.scores.length) := by
  induction ops with
  | nil =>
    intro s s' h name
    simp only [runOps] at h
    rw [← Option.some_inj.mp h]
    constructor
    · intro p p' hp hp'
      rw [hp] at hp'
      rw [Option.some_inj.mp hp']
      simp [countInit]
    · intro hn p' hp'
      rw [hn] at hp'
      cases hp'
  | cons op rest ih =>
    intro s s' h name
    simp only [runOps] at h
    rcases ho : runOp s op with _ | s1
    · rw [ho] at h
      exact absurd h (by simp)
    rw [ho] at h
    cases op with
    | initRound =>
      simp only [runOp] at ho
      have hoeq : (s.InitRound).2 = s1 := Option.some_inj.mp ho
      constructor
      · intro p p' hp hp'
        have hf1 : findPlayer s1.players_ name = some (roundReset p) := by
          rw [← hoeq, InitRound_snd]
          simp only
          rw [findPlayer_map_roundReset, hp]
          rfl
        have hrec := ((ih s1 s' h name).1) (roundReset p) p' hf1 hp'
        simp only [roundReset, List.length_append, List.length_cons,
          List.length_nil] at hrec
        have hc : countInit (Op.initRound :: rest) = countInit rest + 1 := rfl
        rw [hc]
        omega
      · intro hn p' hp'
        have hf1 : findPlayer s1.players_ name = none := by
          rw [← hoeq, InitRound_snd]
          simp only
          rw [findPlayer_map_roundReset, hn]
          rfl
        have hrec := ((ih s1 s' h name).2) hf1 p' hp'
        simpa [roundsSinceJoin, opRefs] using hrec
    | getOrAdd n =>
      simp only [runOp] at ho
      have hoeq : (s.GetOrAddPlayer n).2 = s1 := Option.some_inj.mp ho
      by_cases hnm : n = name
      · subst hnm
        rcases hf : findPlayer s.players_ n with _ | p0
        · have hs1p : s1.players_ = setPlayer s.players_ n Player.default := by
            rw [← hoeq]
            unfold GameState.GetOrAddPlayer
            rw [hf]
          constructor
          · intro p p' hp hp'
            cases hp
          · intro _ p' hp'
            have hf1 : findPlayer s1.players_ n = some Player.default := by
              rw [hs1p]
              exact findPlayer_setPlayer_self _ _ _
            have hrec := ((ih s1 s' h n).1) Player.default p' hf1 hp'
            have hlen : p'.scores.length = countInit rest := by
              simpa [Player.default] using hrec
            simp [roundsSinceJoin, opRefs, hlen]
        · have hs1 : s1 = s := by
            rw [← hoeq]
            unfold GameState.GetOrAddPlayer
            rw [hf]
          subst hs1
          constructor
          · intro p p' hp hp'
            have hrec := ((ih s1 s' h n).1) p p' (by rw [hf]; exact hp) hp'
            simpa [countInit] using hrec
          · intro hn p' hp'
            cases hn
      · have hfind : findPlayer s1.players_ name = findPlayer s.players_ name := by
          rw [← hoeq]
          unfold GameState.GetOrAddPlayer
          rcases hf : findPlayer s.players_ n with _ | p0
          · simp only
            exact findPlayer_setPlayer_ne _ _ _ _ hnm
          · rfl
        constructor
        · intro p p' hp hp'
          have hrec := ((ih s1 s' h name).1) p p' (by rw [hfind]; exact hp) hp'
          simpa [countInit] using hrec
        · intro hn p' hp'
          have hrec := ((ih s1 s' h name).2) (by rw [hfind]; exact hn) p' hp'
          simpa [roundsSinceJoin, opRefs, hnm] using hrec
    | update n d =>
      simp only [runOp] at ho
      obtain ⟨p0, q, hf, he, hs1⟩ := update_success_found s n d s1 ho
      obtain ⟨l, hl, hq, hcur, hlen⟩ := updElem_some p0 q d he
      by_cases hnm : n = name
      · subst hnm
        constructor
        · intro p p' hp hp'
          have hpp0 : p0 = p := by
            rw [hp] at hf
            exact (Option.some_inj.mp hf).symm
          have hf1 : findPlayer s1.players_ n = some q := by
            rw [hs1]
            exact findPlayer_setPlayer_self _ _ _
          have hrec := ((ih s1 s' h n).1) q p' hf1 hp'
          have hc : countInit (Op.update n d :: rest) = countInit rest := rfl
          rw [hc, ← hpp0, ← hlen]
          exact hrec
        · intro hn p' hp'
          rw [hf] at hn
          cases hn
      · have hfind : findPlayer s1.players_ name = findPlayer s.players_ name := by
          rw [hs1]
          exact findPlayer_setPlayer_ne _ _ _ _ hnm
        constructor
        · intro p p' hp hp'
          have hrec := ((ih s1 s' h name).1) p p' (by rw [hfind]; exact hp) hp'
          simpa [countInit] using hrec
        · intro hn p' hp'
          have hrec := ((ih s1 s' h name).2) (by rw [hfind]; exact hn) p' hp'
          simpa [roundsSinceJoin, opRefs, hnm] using hrec

/-- C6: for every player present after any call sequence on the fresh
manager, the length of the player's `scores` sequence equals the number of
`initRound` calls made after the call that first referenced (created) the
player — not the manager's global round counter. -/
theorem scores_length_tracks_join (ops : List Op) (s : GameState)
    (h : runOps GameState.init ops = some s) (name : String) (p : Player)
    (hp : findPlayer s.players_ name = some p) :
    roundsSinceJoin ops name = some p.scores.length :=
  (runOps_scores_length ops GameState.init s h name).2 (by rfl) p hp

/-- Witness for C6: in the scenario round–join–round, alice's scores have
length 1 while the manager's round counter is 2. -/
theorem scores_length_tracks_join_witness :
    roundsSinceJoin [.initRound, .getOrAdd alice, .initRound] alice =
      some (⟨[0], []⟩ : Player).scores.length ∧
    (⟨[0], []⟩ : Player).scores.length = 1 ∧
    sAlice.current_round_ = 2 :=
  ⟨scores_length_tracks_join [.initRound, .getOrAdd alice, .initRound]
      sAlice (by rfl) alice ⟨[0], []⟩ (by rfl),
   by decide, by rfl⟩

end Fruitbox
